import Mathlib

/-! Verification of the 2D MLS-MPM simulation step (tetris.cpp).

The floating-point arithmetic of the source is modelled by exact real
arithmetic.  The background grid is modelled as a total function from
integer node indices to accumulator triples (momentum x, momentum y, mass),
so that the simulation step becomes a pure function on lists of particles.
Helper operations that live in the taichi header (vectors, matrices,
polar decomposition, SVD, clamp, the float-to-int cast) are modelled from
the spec, as noted on each definition. -/

namespace MPM

noncomputable section

/-- Modelled from the spec: 2D real vector (taichi Vector2, float components
modelled as reals). -/
@[ext] structure Vec where
  x : ℝ
  y : ℝ

instance : Zero Vec := ⟨⟨0, 0⟩⟩
instance : Add Vec := ⟨fun u v => ⟨u.x + v.x, u.y + v.y⟩⟩
instance : Sub Vec := ⟨fun u v => ⟨u.x - v.x, u.y - v.y⟩⟩
instance : SMul ℝ Vec := ⟨fun a v => ⟨a * v.x, a * v.y⟩⟩

@[simp] theorem Vec.zero_x : (0 : Vec).x = 0 := rfl
@[simp] theorem Vec.zero_y : (0 : Vec).y = 0 := rfl
@[simp] theorem Vec.add_x (u v : Vec) : (u + v).x = u.x + v.x := rfl
@[simp] theorem Vec.add_y (u v : Vec) : (u + v).y = u.y + v.y := rfl
@[simp] theorem Vec.sub_x (u v : Vec) : (u - v).x = u.x - v.x := rfl
@[simp] theorem Vec.sub_y (u v : Vec) : (u - v).y = u.y - v.y := rfl
@[simp] theorem Vec.smul_x (a : ℝ) (v : Vec) : (a • v).x = a * v.x := rfl
@[simp] theorem Vec.smul_y (a : ℝ) (v : Vec) : (a • v).y = a * v.y := rfl

instance : AddCommMonoid Vec where
  add_assoc a b c := by ext <;> simp <;> ring
  zero_add a := by ext <;> simp
  add_zero a := by ext <;> simp
  add_comm a b := by ext <;> simp <;> ring
  nsmul := nsmulRec

/-- Modelled from the spec: 2x2 real matrix (taichi Matrix2); entry mij is
row i, column j. -/
@[ext] structure Mat where
  m00 : ℝ
  m01 : ℝ
  m10 : ℝ
  m11 : ℝ

/-- Modelled from the spec: the scalar constructor Mat(s) builds the diagonal
matrix s * I. -/
def Mat.diag (s : ℝ) : Mat := ⟨s, 0, 0, s⟩

instance : Zero Mat := ⟨Mat.diag 0⟩
instance : One Mat := ⟨Mat.diag 1⟩
instance : Add Mat := ⟨fun a b => ⟨a.m00 + b.m00, a.m01 + b.m01, a.m10 + b.m10, a.m11 + b.m11⟩⟩
instance : Sub Mat := ⟨fun a b => ⟨a.m00 - b.m00, a.m01 - b.m01, a.m10 - b.m10, a.m11 - b.m11⟩⟩
instance : SMul ℝ Mat := ⟨fun s a => ⟨s * a.m00, s * a.m01, s * a.m10, s * a.m11⟩⟩
instance : Mul Mat := ⟨fun a b =>
  ⟨a.m00 * b.m00 + a.m01 * b.m10, a.m00 * b.m01 + a.m01 * b.m11,
   a.m10 * b.m00 + a.m11 * b.m10, a.m10 * b.m01 + a.m11 * b.m11⟩⟩

@[simp] theorem Mat.zero_m00 : (0 : Mat).m00 = 0 := rfl
@[simp] theorem Mat.zero_m01 : (0 : Mat).m01 = 0 := rfl
@[simp] theorem Mat.zero_m10 : (0 : Mat).m10 = 0 := rfl
@[simp] theorem Mat.zero_m11 : (0 : Mat).m11 = 0 := rfl
@[simp] theorem Mat.one_m00 : (1 : Mat).m00 = 1 := rfl
@[simp] theorem Mat.one_m01 : (1 : Mat).m01 = 0 := rfl
@[simp] theorem Mat.one_m10 : (1 : Mat).m10 = 0 := rfl
@[simp] theorem Mat.one_m11 : (1 : Mat).m11 = 1 := rfl
@[simp] theorem Mat.add_m00 (a b : Mat) : (a + b).m00 = a.m00 + b.m00 := rfl
@[simp] theorem Mat.add_m01 (a b : Mat) : (a + b).m01 = a.m01 + b.m01 := rfl
@[simp] theorem Mat.add_m10 (a b : Mat) : (a + b).m10 = a.m10 + b.m10 := rfl
@[simp] theorem Mat.add_m11 (a b : Mat) : (a + b).m11 = a.m11 + b.m11 := rfl
@[simp] theorem Mat.sub_m00 (a b : Mat) : (a - b).m00 = a.m00 - b.m00 := rfl
@[simp] theorem Mat.sub_m01 (a b : Mat) : (a - b).m01 = a.m01 - b.m01 := rfl
@[simp] theorem Mat.sub_m10 (a b : Mat) : (a - b).m10 = a.m10 - b.m10 := rfl
@[simp] theorem Mat.sub_m11 (a b : Mat) : (a - b).m11 = a.m11 - b.m11 := rfl
@[simp] theorem Mat.smul_m00 (s : ℝ) (a : Mat) : (s • a).m00 = s * a.m00 := rfl
@[simp] theorem Mat.smul_m01 (s : ℝ) (a : Mat) : (s • a).m01 = s * a.m01 := rfl
@[simp] theorem Mat.smul_m10 (s : ℝ) (a : Mat) : (s • a).m10 = s * a.m10 := rfl
@[simp] theorem Mat.smul_m11 (s : ℝ) (a : Mat) : (s • a).m11 = s * a.m11 := rfl
@[simp] theorem Mat.mul_m00 (a b : Mat) : (a * b).m00 = a.m00 * b.m00 + a.m01 * b.m10 := rfl
@[simp] theorem Mat.mul_m01 (a b : Mat) : (a * b).m01 = a.m00 * b.m01 + a.m01 * b.m11 := rfl
@[simp] theorem Mat.mul_m10 (a b : Mat) : (a * b).m10 = a.m10 * b.m00 + a.m11 * b.m10 := rfl
@[simp] theorem Mat.mul_m11 (a b : Mat) : (a * b).m11 = a.m10 * b.m01 + a.m11 * b.m11 := rfl

instance : AddCommMonoid Mat where
  add_assoc a b c := by ext <;> simp <;> ring
  zero_add a := by ext <;> simp
  add_zero a := by ext <;> simp
  add_comm a b := by ext <;> simp <;> ring
  nsmul := nsmulRec

/-- Modelled from the spec: matrix transpose (taichi transposed). -/
def Mat.transposed (a : Mat) : Mat := ⟨a.m00, a.m10, a.m01, a.m11⟩

/-- Modelled from the spec: matrix determinant (taichi determinant). -/
def Mat.det (a : Mat) : ℝ := a.m00 * a.m11 - a.m01 * a.m10

/-- Modelled from the spec: matrix-vector product. -/
def Mat.mulVec (a : Mat) (v : Vec) : Vec :=
  ⟨a.m00 * v.x + a.m01 * v.y, a.m10 * v.x + a.m11 * v.y⟩

/-- Modelled from the spec: outer product of two vectors (taichi
Mat::outer_product). -/
def Mat.outer (u v : Vec) : Mat := ⟨u.x * v.x, u.x * v.y, u.y * v.x, u.y * v.y⟩

/-- Modelled from the spec: clamp a value into the closed interval
from lo to hi. -/
def clamp (a lo hi : ℝ) : ℝ := min (max a lo) hi

/-- Modelled from the spec: polar decomposition of a 2x2 matrix into a
rotation r and a stretch s = transposed r * m, by the standard closed form
built from the trace and the skew part (the taichi header is not part of
the sources). -/
def polar_decomp (m : Mat) : Mat × Mat :=
  let x := m.m00 + m.m11
  let y := m.m10 - m.m01
  let scale := 1 / Real.sqrt (x * x + y * y)
  let c := x * scale
  let s := y * scale
  let r : Mat := ⟨c, -s, s, c⟩
  (r, r.transposed * m)

/-- Modelled from the spec: singular value decomposition m = u * sig *
transposed v of a 2x2 matrix, via the polar decomposition followed by a
Jacobi rotation diagonalizing the symmetric stretch factor (the taichi
header is not part of the sources). -/
def svd (m : Mat) : Mat × Mat × Mat :=
  let pr := polar_decomp m
  let u0 := pr.1
  let S := pr.2
  if S.m01 = 0 then
    (u0, S, 1)
  else
    let tao := 0.5 * (S.m00 - S.m11)
    let w := Real.sqrt (tao * tao + S.m01 * S.m01)
    let t := if 0 < tao then S.m01 / (tao + w) else S.m01 / (tao - w)
    let c := 1 / Real.sqrt (t * t + 1)
    let s := -t * c
    let sig : Mat := ⟨c ^ 2 * S.m00 - 2 * c * s * S.m01 + s ^ 2 * S.m11, 0, 0,
                      s ^ 2 * S.m00 + 2 * c * s * S.m01 + c ^ 2 * S.m11⟩
    let v : Mat := ⟨c, s, -s, c⟩
    (u0 * v, sig, v)

/-- Grid accumulator cell, modelling taichi Vector3: momentum x, momentum y
and mass. -/
@[ext] structure V3 where
  x : ℝ
  y : ℝ
  z : ℝ

instance : Zero V3 := ⟨⟨0, 0, 0⟩⟩
instance : Add V3 := ⟨fun u v => ⟨u.x + v.x, u.y + v.y, u.z + v.z⟩⟩
instance : SMul ℝ V3 := ⟨fun a v => ⟨a * v.x, a * v.y, a * v.z⟩⟩

@[simp] theorem V3.v3zero_x : (0 : V3).x = 0 := rfl
@[simp] theorem V3.v3zero_y : (0 : V3).y = 0 := rfl
@[simp] theorem V3.v3zero_z : (0 : V3).z = 0 := rfl
@[simp] theorem V3.v3add_x (u v : V3) : (u + v).x = u.x + v.x := rfl
@[simp] theorem V3.v3add_y (u v : V3) : (u + v).y = u.y + v.y := rfl
@[simp] theorem V3.v3add_z (u v : V3) : (u + v).z = u.z + v.z := rfl
@[simp] theorem V3.v3smul_x (a : ℝ) (v : V3) : (a • v).x = a * v.x := rfl
@[simp] theorem V3.v3smul_y (a : ℝ) (v : V3) : (a • v).y = a * v.y := rfl
@[simp] theorem V3.v3smul_z (a : ℝ) (v : V3) : (a • v).z = a * v.z := rfl

instance : AddCommMonoid V3 where
  add_assoc a b c := by ext <;> simp <;> ring
  zero_add a := by ext <;> simp
  add_zero a := by ext <;> simp
  add_comm a b := by ext <;> simp <;> ring
  nsmul := nsmulRec

/-- First two components of a grid cell, as a velocity vector
(taichi Vec(Vector3)). -/
def V3.toVec (v : V3) : Vec := ⟨v.x, v.y⟩

/-- One material point: position, velocity, deformation gradient F, affine
velocity field C, plastic jacobian Jp, color and material type
(0 elastic, 1 plastic snow, 2 liquid). -/
structure Particle where
  x : Vec
  v : Vec
  F : Mat
  C : Mat
  Jp : ℝ
  c : ℤ
  type : ℤ

instance : Inhabited Particle := ⟨⟨0, 0, 1, 0, 1, 0, 0⟩⟩

/-- Grid resolution in cells; the node array has n + 1 nodes per axis. -/
def n : ℤ := 80

/-- Cell size dx = 1.0 / n. -/
def dx : ℝ := 1 / 80

/-- Inverse cell size inv_dx = 1.0 / dx. -/
def inv_dx : ℝ := 1 / dx

/-- The timestep constant dt = 1e-4 of the source. -/
def dt0 : ℝ := 1e-4

def particle_mass : ℝ := 1

def vol : ℝ := 1

def hardening : ℝ := 10

def E : ℝ := 1e4

def nu : ℝ := 0.2

def mu_0 : ℝ := E / (2 * (1 + nu))

def lambda_0 : ℝ := E * nu / ((1 + nu) * (1 - 2 * nu))

/-- Boundary band thickness used in the grid solve. -/
def boundary : ℝ := 0.05

/-- The grid, as a total function from node indices to accumulator cells. -/
def Grid := ℤ → ℤ → V3

/-- The zeroed grid (memset at the start of each step). -/
def grid0 : Grid := fun _ _ => 0

/-- Modelled from the spec: the base cell of the P2G transfer,
componentwise floor of position * inv_dx - 0.5 (the cast to int of the
taichi header, documented in the source as element-wise floor). -/
def p2g_base_coord (x : Vec) : ℤ × ℤ :=
  (⌊x.x * inv_dx - 0.5⌋, ⌊x.y * inv_dx - 0.5⌋)

/-- Fractional offset fx = position * inv_dx - base_coord in the P2G
transfer. -/
def p2g_fx (x : Vec) : Vec :=
  ⟨x.x * inv_dx - ((p2g_base_coord x).1 : ℝ), x.y * inv_dx - ((p2g_base_coord x).2 : ℝ)⟩

/-- Quadratic B-spline kernel weights of the P2G transfer, one axis:
w[0] = 0.5 (1.5 - fx)^2, w[1] = 0.75 - (fx - 1)^2, w[2] = 0.5 (fx - 0.5)^2. -/
def p2g_w (fx : ℝ) : ℕ → ℝ
  | 0 => 0.5 * (1.5 - fx) ^ 2
  | 1 => 0.75 - (fx - 1) ^ 2
  | 2 => 0.5 * (fx - 0.5) ^ 2
  | _ => 0

/-- The Cauchy stress term of P2G (times dt and inv_dx as in the source):
fixed corotated model with exponential hardening driven by Jp; the scalar
summand of the source is the corresponding multiple of the identity. -/
def p2g_stress (dt : ℝ) (p : Particle) : Mat :=
  let e := Real.exp (hardening * (1 - p.Jp))
  let mu := mu_0 * e
  let lam := lambda_0 * e
  let J := p.F.det
  let r := (polar_decomp p.F).1
  (-4 * inv_dx * inv_dx * dt * vol) •
      ((2 * mu) • ((p.F - r) * p.F.transposed) + (lam * (J - 1) * J) • (1 : Mat))

/-- The affine momentum matrix of P2G: stress plus mass times the affine
velocity field. -/
def p2g_affine (dt : ℝ) (p : Particle) : Mat :=
  p2g_stress dt p + particle_mass • p.C

/-- P2G scatter of one particle: mass, momentum and the stress-derived
affine term are accumulated onto the 9 surrounding grid nodes. -/
def p2gOne (dt : ℝ) (g : Grid) (p : Particle) : Grid :=
  let base := p2g_base_coord p.x
  let fx := p2g_fx p.x
  let affine := p2g_affine dt p
  fun a b => g a b + ∑ i in Finset.range 3, ∑ j in Finset.range 3,
    if a = base.1 + (i : ℤ) ∧ b = base.2 + (j : ℤ) then
      let dpos := dx • (Vec.mk (i : ℝ) (j : ℝ) - fx)
      let mv : V3 := ⟨p.v.x * particle_mass, p.v.y * particle_mass, particle_mass⟩
      (p2g_w fx.x i * p2g_w fx.y j) •
        (mv + V3.mk (affine.mulVec dpos).x (affine.mulVec dpos).y 0)
    else 0

/-- P2G over the whole particle list, starting from the zeroed grid. -/
def p2gAll (dt : ℝ) (ps : List Particle) : Grid :=
  ps.foldl (p2gOne dt) grid0

/-- Grid solve at one node: normalize momentum by mass when the mass is
strictly positive, apply gravity, then the boundary conditions (sticky
walls left, right and top; separating floor at the bottom). -/
def solveNode (dt : ℝ) (i j : ℤ) (gv : V3) : V3 :=
  if 0 < gv.z then
    let g1 := gv.z⁻¹ • gv
    let g2 := g1 + dt • V3.mk 0 (-200) 0
    let xc : ℝ := (i : ℝ) / (n : ℝ)
    let yc : ℝ := (j : ℝ) / (n : ℝ)
    let g3 := if xc < boundary ∨ 1 - boundary < xc ∨ 1 - boundary < yc then 0 else g2
    if yc < boundary then V3.mk g3.x (max 0 g3.y) g3.z else g3
  else gv

/-- Grid solve phase: every node with indices in [0, n] x [0, n] is
processed independently. -/
def gridSolve (dt : ℝ) (g : Grid) : Grid := fun i j =>
  if 0 ≤ i ∧ i ≤ n ∧ 0 ≤ j ∧ j ≤ n then solveNode dt i j (g i j) else g i j

/-- The grid after P2G and the grid solve, as read by G2P. -/
def solvedGrid (dt : ℝ) (ps : List Particle) : Grid :=
  gridSolve dt (p2gAll dt ps)

/-- Modelled from the spec: the base cell of the G2P transfer, recomputed
with the same formula as in P2G. -/
def g2p_base_coord (x : Vec) : ℤ × ℤ :=
  (⌊x.x * inv_dx - 0.5⌋, ⌊x.y * inv_dx - 0.5⌋)

/-- Fractional offset of the G2P transfer, recomputed as in P2G. -/
def g2p_fx (x : Vec) : Vec :=
  ⟨x.x * inv_dx - ((g2p_base_coord x).1 : ℝ), x.y * inv_dx - ((g2p_base_coord x).2 : ℝ)⟩

/-- Quadratic kernel weights of the G2P transfer, recomputed as in P2G. -/
def g2p_w (fx : ℝ) : ℕ → ℝ
  | 0 => 0.5 * (1.5 - fx) ^ 2
  | 1 => 0.75 - (fx - 1) ^ 2
  | 2 => 0.5 * (fx - 0.5) ^ 2
  | _ => 0

/-- G2P gather: the new particle velocity and affine velocity field,
accumulated from the 9 surrounding grid nodes. -/
def g2p_gather (g : Grid) (p : Particle) : Vec × Mat :=
  let base := g2p_base_coord p.x
  let fx := g2p_fx p.x
  (∑ i in Finset.range 3, ∑ j in Finset.range 3,
      (g2p_w fx.x i * g2p_w fx.y j) • (g (base.1 + (i : ℤ)) (base.2 + (j : ℤ))).toVec,
   ∑ i in Finset.range 3, ∑ j in Finset.range 3,
      (4 * inv_dx) • Mat.outer
        ((g2p_w fx.x i * g2p_w fx.y j) • (g (base.1 + (i : ℤ)) (base.2 + (j : ℤ))).toVec)
        (Vec.mk (i : ℝ) (j : ℝ) - fx))

/-- Candidate deformation gradient of the MLS-MPM update,
F = (I + dt * C) * F_old, with C the freshly gathered affine field. -/
def candidateF (dt : ℝ) (g : Grid) (p : Particle) : Mat :=
  (1 + dt • (g2p_gather g p).2) * p.F

/-- G2P update of one particle: gather velocity and affine field, advect,
then the per-material constitutive update (elastic keeps the candidate F,
snow clamps its singular values and tracks Jp, liquid keeps F unchanged). -/
def g2pOne (dt : ℝ) (g : Grid) (p : Particle) : Particle :=
  let vC := g2p_gather g p
  let v := vC.1
  let C := vC.2
  let x := p.x + dt • v
  if p.type ≤ 1 then
    let F := candidateF dt g p
    if p.type = 1 then
      let usv := svd F
      let u := usv.1
      let sg := usv.2.1
      let vv := usv.2.2
      let sgc : Mat := ⟨clamp sg.m00 (1 - 2.5e-2) (1 + 7.5e-3), sg.m01, sg.m10,
                        clamp sg.m11 (1 - 2.5e-2) (1 + 7.5e-3)⟩
      let oldJ := F.det
      let Fc := u * sgc * vv.transposed
      let JpNew := clamp (p.Jp * oldJ / Fc.det) 0.6 20.0
      { p with x := x, v := v, C := C, F := Fc, Jp := JpNew }
    else
      { p with x := x, v := v, C := C, F := F }
  else
    { p with x := x, v := v, C := C }

/-- One simulation step (the advance function of the source): reset the
grid, P2G scatter, grid solve, G2P gather and constitutive update. -/
def advance (dt : ℝ) (ps : List Particle) : List Particle :=
  ps.map (g2pOne dt (solvedGrid dt ps))

/-- The singular values of a 2x2 matrix: square roots of the eigenvalues of
transposed m * m, by the closed form for the eigenvalues of a symmetric
positive semidefinite 2x2 matrix.  This is the vocabulary of the spec, used
to state the snow plasticity bounds. -/
def singularValues (m : Mat) : ℝ × ℝ :=
  let B := m.transposed * m
  let tr := B.m00 + B.m11
  let de := B.det
  let disc := Real.sqrt (tr ^ 2 - 4 * de)
  (Real.sqrt ((tr + disc) / 2), Real.sqrt ((tr - disc) / 2))

/-- The polar decomposition (and with it the SVD) of a 2x2 matrix is
non-degenerate exactly when the trace and the skew part do not both
vanish. -/
def nonDegenerate (m : Mat) : Prop :=
  (m.m00 + m.m11) ^ 2 + (m.m10 - m.m01) ^ 2 ≠ 0

/-- A particle at the domain center with rest deformation state and a given
initial velocity, used for concrete scenarios. -/
def centerParticle (v : Vec) (cc ty : ℤ) : Particle :=
  ⟨⟨1 / 2, 1 / 2⟩, v, 1, 0, 1, cc, ty⟩

/-- A snow particle deep inside the left sticky band whose deformation
gradient diag(1, -1) has zero trace and zero skew, so its polar
decomposition is degenerate. -/
def degenerateSnowParticle : Particle :=
  ⟨⟨1 / 50, 1 / 2⟩, 0, ⟨1, 0, 0, -1⟩, 0, 1, 0, 1⟩

end

namespace Facts

/-! Helper lemmas about the embedding.  None of these is a claim theorem. -/

theorem p2gOne_untouched (dt : ℝ) (g : Grid) (p : Particle) (a b : ℤ)
    (h : ∀ i ∈ Finset.range 3, ∀ j ∈ Finset.range 3,
      ¬(a = (p2g_base_coord p.x).1 + (i : ℤ) ∧ b = (p2g_base_coord p.x).2 + (j : ℤ))) :
    p2gOne dt g p a b = g a b := by
  simp only [p2gOne]
  rw [Finset.sum_eq_zero, add_zero]
  intro i hi
  exact Finset.sum_eq_zero fun j hj => if_neg (h i hi j hj)

theorem foldl_p2gOne_untouched (dt : ℝ) (ps : List Particle) (a b : ℤ) :
    ∀ g : Grid,
      (∀ p ∈ ps, ∀ i ∈ Finset.range 3, ∀ j ∈ Finset.range 3,
        ¬(a = (p2g_base_coord p.x).1 + (i : ℤ) ∧ b = (p2g_base_coord p.x).2 + (j : ℤ))) →
      ps.foldl (p2gOne dt) g a b = g a b := by
  induction ps with
  | nil => intro g _; rfl
  | cons p ps ih =>
    intro g h
    rw [List.foldl_cons, ih _ fun q hq => h q (List.mem_cons_of_mem p hq),
      p2gOne_untouched dt g p a b (h p (List.mem_cons_self p ps))]

@[simp] theorem advance_length (dt : ℝ) (ps : List Particle) :
    (advance dt ps).length = ps.length := by
  simp [advance]

theorem advance_getD (dt : ℝ) (ps : List Particle) (i : ℕ) (h : i < ps.length) :
    (advance dt ps).getD i default = g2pOne dt (solvedGrid dt ps) (ps.getD i default) := by
  rw [List.getD_eq_getElem _ _ (by simpa using h), List.getD_eq_getElem _ _ h]
  simp [advance]

theorem g2pOne_type (dt : ℝ) (g : Grid) (p : Particle) :
    (g2pOne dt g p).type = p.type := by
  simp only [g2pOne]
  split
  · split <;> rfl
  · rfl

theorem g2pOne_c (dt : ℝ) (g : Grid) (p : Particle) :
    (g2pOne dt g p).c = p.c := by
  simp only [g2pOne]
  split
  · split <;> rfl
  · rfl

theorem g2pOne_F_liquid (dt : ℝ) (g : Grid) (p : Particle) (h : p.type = 2) :
    (g2pOne dt g p).F = p.F := by
  simp only [g2pOne, h]
  norm_num

theorem g2pOne_v (dt : ℝ) (g : Grid) (p : Particle) :
    (g2pOne dt g p).v = (g2p_gather g p).1 := by
  simp only [g2pOne]
  split
  · split <;> rfl
  · rfl

theorem g2pOne_x (dt : ℝ) (g : Grid) (p : Particle) :
    (g2pOne dt g p).x = p.x + dt • (g2p_gather g p).1 := by
  simp only [g2pOne]
  split
  · split <;> rfl
  · rfl

theorem g2pOne_snow_F (dt : ℝ) (g : Grid) (p : Particle) (ht : p.type = 1) :
    (g2pOne dt g p).F =
      (svd (candidateF dt g p)).1 *
        Mat.mk (clamp (svd (candidateF dt g p)).2.1.m00 (1 - 2.5e-2) (1 + 7.5e-3))
          (svd (candidateF dt g p)).2.1.m01 (svd (candidateF dt g p)).2.1.m10
          (clamp (svd (candidateF dt g p)).2.1.m11 (1 - 2.5e-2) (1 + 7.5e-3)) *
        (svd (candidateF dt g p)).2.2.transposed := by
  simp only [g2pOne, ht]
  norm_num

theorem g2pOne_snow_Jp (dt : ℝ) (g : Grid) (p : Particle) (ht : p.type = 1) :
    (g2pOne dt g p).Jp =
      clamp (p.Jp * (candidateF dt g p).det / ((g2pOne dt g p).F).det) 0.6 20.0 := by
  rw [g2pOne_snow_F dt g p ht]
  simp only [g2pOne, ht]
  norm_num

theorem clamp_mem (x lo hi : ℝ) (h : lo ≤ hi) :
    lo ≤ clamp x lo hi ∧ clamp x lo hi ≤ hi :=
  ⟨le_min (le_max_right x lo) h, min_le_right _ _⟩

theorem Mat.transposed_mul (a b : Mat) :
    (a * b).transposed = b.transposed * a.transposed := by
  ext <;> simp [MPM.Mat.transposed] <;> ring

theorem Mat.mul_assoc (a b c : Mat) : a * b * c = a * (b * c) := by
  ext <;> simp <;> ring

theorem Mat.one_mul (a : Mat) : (1 : Mat) * a = a := by
  ext <;> simp

theorem Mat.mul_one (a : Mat) : a * (1 : Mat) = a := by
  ext <;> simp

theorem Mat.det_mul (a b : Mat) : (a * b).det = a.det * b.det := by
  simp only [MPM.Mat.det]
  simp
  ring

theorem Mat.det_transposed (a : Mat) : a.transposed.det = a.det := by
  simp only [MPM.Mat.det, MPM.Mat.transposed]
  ring

theorem polar_symm (m : Mat) :
    (polar_decomp m).2.m01 = (polar_decomp m).2.m10 := by
  simp only [polar_decomp, MPM.Mat.transposed]
  simp
  ring

theorem polar_r_orth (m : Mat) (h : nonDegenerate m) :
    (polar_decomp m).1.transposed * (polar_decomp m).1 = 1 := by
  have hq : (0 : ℝ) <
      (m.m00 + m.m11) * (m.m00 + m.m11) + (m.m10 - m.m01) * (m.m10 - m.m01) := by
    rcases lt_or_eq_of_le
        (add_nonneg (mul_self_nonneg (m.m00 + m.m11)) (mul_self_nonneg (m.m10 - m.m01)))
      with h' | h'
    · exact h'
    · exact absurd (by nlinarith [h'.symm] : (m.m00 + m.m11) ^ 2 + (m.m10 - m.m01) ^ 2 = 0)
        h
  have hs : Real.sqrt ((m.m00 + m.m11) * (m.m00 + m.m11) +
      (m.m10 - m.m01) * (m.m10 - m.m01)) ≠ 0 :=
    ne_of_gt (Real.sqrt_pos.mpr hq)
  have h2 : Real.sqrt ((m.m00 + m.m11) * (m.m00 + m.m11) +
        (m.m10 - m.m01) * (m.m10 - m.m01)) ^ 2 =
      (m.m00 + m.m11) * (m.m00 + m.m11) + (m.m10 - m.m01) * (m.m10 - m.m01) :=
    Real.sq_sqrt hq.le
  ext <;> simp [polar_decomp, MPM.Mat.transposed] <;> field_simp <;> nlinarith [h2, hq]

theorem advance_iterate_facts (dt : ℝ) (ps : List Particle) (N : ℕ) :
    ((advance dt)^[N] ps).length = ps.length ∧
    ∀ i : ℕ, i < ps.length →
      (((advance dt)^[N] ps).getD i default).c = (ps.getD i default).c ∧
      (((advance dt)^[N] ps).getD i default).type = (ps.getD i default).type := by
  induction N with
  | zero => exact ⟨rfl, fun i _ => ⟨rfl, rfl⟩⟩
  | succ N ih =>
    rw [Function.iterate_succ_apply']
    refine ⟨by rw [advance_length, ih.1], fun i hi => ?_⟩
    rw [advance_getD dt _ i (by rw [ih.1]; exact hi)]
    exact ⟨(g2pOne_c _ _ _).trans (ih.2 i hi).1, (g2pOne_type _ _ _).trans (ih.2 i hi).2⟩

theorem rot_c_s_sq (t : ℝ) :
    (1 / Real.sqrt (t * t + 1)) * (1 / Real.sqrt (t * t + 1)) +
      (-t * (1 / Real.sqrt (t * t + 1))) * (-t * (1 / Real.sqrt (t * t + 1))) = 1 := by
  have hpos : (0 : ℝ) < t * t + 1 := by nlinarith [mul_self_nonneg t]
  have hs : Real.sqrt (t * t + 1) ≠ 0 := ne_of_gt (Real.sqrt_pos.mpr hpos)
  have h2 : Real.sqrt (t * t + 1) ^ 2 = t * t + 1 := Real.sq_sqrt hpos.le
  field_simp
  nlinarith [h2]

theorem rot_orth (c s : ℝ) (h : c * c + s * s = 1) :
    (Mat.mk c s (-s) c).transposed * Mat.mk c s (-s) c = 1 := by
  ext
  · simp only [Mat.mul_m00, MPM.Mat.transposed, Mat.one_m00]
    linear_combination h
  · simp only [Mat.mul_m01, MPM.Mat.transposed, Mat.one_m01]
    ring
  · simp only [Mat.mul_m10, MPM.Mat.transposed, Mat.one_m10]
    ring
  · simp only [Mat.mul_m11, MPM.Mat.transposed, Mat.one_m11]
    linear_combination h

theorem orth_mul (a b : Mat) (ha : a.transposed * a = 1) (hb : b.transposed * b = 1) :
    (a * b).transposed * (a * b) = 1 := by
  rw [Mat.transposed_mul, Mat.mul_assoc, ← Mat.mul_assoc a.transposed a b, ha,
    Mat.one_mul, hb]

theorem svd_v_orth (m : Mat) :
    (svd m).2.2.transposed * (svd m).2.2 = 1 := by
  simp only [svd]
  split
  · ext <;> simp [MPM.Mat.transposed]
  · exact rot_orth _ _ (rot_c_s_sq _)

theorem svd_u_orth (m : Mat) (h : nonDegenerate m) :
    (svd m).1.transposed * (svd m).1 = 1 := by
  simp only [svd]
  split
  · exact polar_r_orth m h
  · exact orth_mul _ _ (polar_r_orth m h) (rot_orth _ _ (rot_c_s_sq _))

theorem svd_sig_offdiag (m : Mat) :
    (svd m).2.1.m01 = 0 ∧ (svd m).2.1.m10 = 0 := by
  simp only [svd]
  split
  next h => exact ⟨h, (polar_symm m) ▸ h⟩
  next h => exact ⟨rfl, rfl⟩

theorem sv_of_rotations (U V : Mat) (d1 d2 : ℝ)
    (hU : U.transposed * U = 1) (hV : V.transposed * V = 1)
    (h1 : 0 < d1) (h2 : 0 < d2) :
    singularValues (U * Mat.mk d1 0 0 d2 * V.transposed) = (max d1 d2, min d1 d2) := by
  have hU1 : U.m00 * U.m00 + U.m10 * U.m10 = 1 := by
    have := congrArg Mat.m00 hU; simpa [MPM.Mat.transposed] using this
  have hU2 : U.m00 * U.m01 + U.m10 * U.m11 = 0 := by
    have := congrArg Mat.m01 hU; simpa [MPM.Mat.transposed] using this
  have hU3 : U.m01 * U.m01 + U.m11 * U.m11 = 1 := by
    have := congrArg Mat.m11 hU; simpa [MPM.Mat.transposed] using this
  have hV1 : V.m00 * V.m00 + V.m10 * V.m10 = 1 := by
    have := congrArg Mat.m00 hV; simpa [MPM.Mat.transposed] using this
  have hV2 : V.m00 * V.m01 + V.m10 * V.m11 = 0 := by
    have := congrArg Mat.m01 hV; simpa [MPM.Mat.transposed] using this
  have hV3 : V.m01 * V.m01 + V.m11 * V.m11 = 1 := by
    have := congrArg Mat.m11 hV; simpa [MPM.Mat.transposed] using this
  set A := U * Mat.mk d1 0 0 d2 * V.transposed with hA
  have htr : (A.transposed * A).m00 + (A.transposed * A).m11 = d1 ^ 2 + d2 ^ 2 := by
    simp only [hA, Mat.mul_m00, Mat.mul_m01, Mat.mul_m10, Mat.mul_m11, MPM.Mat.transposed]
    linear_combination (d1 ^ 2 * (V.m00 * V.m00 + V.m10 * V.m10)) * hU1 + d1 ^ 2 * hV1 +
      (d2 ^ 2 * (V.m01 * V.m01 + V.m11 * V.m11)) * hU3 + d2 ^ 2 * hV3 +
      (2 * d1 * d2 * (V.m00 * V.m01 + V.m10 * V.m11)) * hU2
  have hdU : U.det ^ 2 = 1 := by
    simp only [MPM.Mat.det]
    linear_combination (U.m01 * U.m01 + U.m11 * U.m11) * hU1 + hU3 -
      (U.m00 * U.m01 + U.m10 * U.m11) * hU2
  have hdV : V.det ^ 2 = 1 := by
    simp only [MPM.Mat.det]
    linear_combination (V.m01 * V.m01 + V.m11 * V.m11) * hV1 + hV3 -
      (V.m00 * V.m01 + V.m10 * V.m11) * hV2
  have hdetA : A.det = U.det * (d1 * d2) * V.det := by
    rw [hA, Mat.det_mul, Mat.det_mul, Mat.det_transposed]
    simp only [MPM.Mat.det]
    ring
  have hdet : (A.transposed * A).det = (d1 * d2) ^ 2 := by
    rw [Mat.det_mul, Mat.det_transposed, hdetA]
    linear_combination ((d1 * d2) ^ 2 * V.det ^ 2) * hdU + (d1 * d2) ^ 2 * hdV
  simp only [singularValues]
  rw [htr, hdet,
    show (d1 ^ 2 + d2 ^ 2) ^ 2 - 4 * (d1 * d2) ^ 2 = ((d1 ^ 2 - d2 ^ 2) ^ 2) by ring,
    Real.sqrt_sq_eq_abs]
  rcases le_total d1 d2 with hle | hle
  · rw [abs_of_nonpos (by nlinarith : d1 ^ 2 - d2 ^ 2 ≤ 0),
      show (d1 ^ 2 + d2 ^ 2 + -(d1 ^ 2 - d2 ^ 2)) / 2 = d2 ^ 2 by ring,
      show (d1 ^ 2 + d2 ^ 2 - -(d1 ^ 2 - d2 ^ 2)) / 2 = d1 ^ 2 by ring,
      Real.sqrt_sq h2.le, Real.sqrt_sq h1.le, max_eq_right hle, min_eq_left hle]
  · rw [abs_of_nonneg (by nlinarith : 0 ≤ d1 ^ 2 - d2 ^ 2),
      show (d1 ^ 2 + d2 ^ 2 + (d1 ^ 2 - d2 ^ 2)) / 2 = d1 ^ 2 by ring,
      show (d1 ^ 2 + d2 ^ 2 - (d1 ^ 2 - d2 ^ 2)) / 2 = d2 ^ 2 by ring,
      Real.sqrt_sq h1.le, Real.sqrt_sq h2.le, max_eq_left hle, min_eq_right hle]

theorem floor_base_bounds (a : ℝ) :
    (0 ≤ ⌊a * inv_dx - 0.5⌋ ∧ ⌊a * inv_dx - 0.5⌋ + 2 ≤ n) ↔
      (0.5 * dx ≤ a ∧ a < ((n : ℝ) - 0.5) * dx) := by
  have h80 : inv_dx = (80 : ℝ) := by norm_num [inv_dx, dx]
  have hn : ((n : ℝ) - 0.5) * dx = 79.5 * (1 / 80) := by norm_num [n, dx]
  rw [h80, hn]
  simp only [n, dx]
  constructor
  · rintro ⟨ha, hb⟩
    have ha' : ((0 : ℤ) : ℝ) ≤ a * 80 - 0.5 := Int.le_floor.mp ha
    have hb2 : ⌊a * 80 - 0.5⌋ < 79 := by omega
    have hb' : a * 80 - 0.5 < ((79 : ℤ) : ℝ) := Int.floor_lt.mp hb2
    push_cast at ha' hb'
    constructor <;> nlinarith
  · rintro ⟨ha, hb⟩
    have ha' : (0 : ℤ) ≤ ⌊a * 80 - 0.5⌋ := Int.le_floor.mpr (by push_cast; nlinarith)
    have hb' : ⌊a * 80 - 0.5⌋ < 79 := Int.floor_lt.mpr (by push_cast; nlinarith)
    omega

theorem floor_base_overflow (a : ℝ) (h : ((n : ℝ) - 0.5) * dx ≤ a) :
    (79 : ℤ) ≤ ⌊a * inv_dx - 0.5⌋ := by
  have h80 : inv_dx = (80 : ℝ) := by norm_num [inv_dx, dx]
  have hn : ((n : ℝ) - 0.5) * dx = 79.5 * (1 / 80) := by norm_num [n, dx]
  rw [h80]
  rw [hn] at h
  exact Int.le_floor.mpr (by push_cast; nlinarith)

theorem advance_iterate_F_liquid (dt : ℝ) (ps : List Particle) (N i : ℕ)
    (h : i < ps.length) (ht : (ps.getD i default).type = 2) :
    (((advance dt)^[N] ps).getD i default).F = (ps.getD i default).F := by
  induction N with
  | zero => rfl
  | succ N ih =>
    rw [Function.iterate_succ_apply',
      advance_getD dt _ i (by rw [(advance_iterate_facts dt ps N).1]; exact h),
      g2pOne_F_liquid _ _ _ (((advance_iterate_facts dt ps N).2 i h).2.trans ht)]
    exact ih

end Facts

namespace Facts

theorem p2g_w_zero (fx : ℝ) : p2g_w fx 0 = 0.5 * (1.5 - fx) ^ 2 := rfl

theorem p2g_w_one (fx : ℝ) : p2g_w fx 1 = 0.75 - (fx - 1) ^ 2 := rfl

theorem p2g_w_two (fx : ℝ) : p2g_w fx 2 = 0.5 * (fx - 0.5) ^ 2 := rfl

theorem g2p_w_zero (fx : ℝ) : g2p_w fx 0 = 0.5 * (1.5 - fx) ^ 2 := rfl

theorem g2p_w_one (fx : ℝ) : g2p_w fx 1 = 0.75 - (fx - 1) ^ 2 := rfl

theorem g2p_w_two (fx : ℝ) : g2p_w fx 2 = 0.5 * (fx - 0.5) ^ 2 := rfl

theorem g2p_base_eq (x : Vec) : g2p_base_coord x = p2g_base_coord x := rfl

theorem g2p_fx_eq (x : Vec) : g2p_fx x = p2g_fx x := rfl

theorem polar_one : polar_decomp (1 : Mat) = (1, 1) := by
  have h4 : Real.sqrt (((1 : Mat).m00 + (1 : Mat).m11) * ((1 : Mat).m00 + (1 : Mat).m11) +
      ((1 : Mat).m10 - (1 : Mat).m01) * ((1 : Mat).m10 - (1 : Mat).m01)) = 2 := by
    rw [show (((1 : Mat).m00 + (1 : Mat).m11) * ((1 : Mat).m00 + (1 : Mat).m11) +
        ((1 : Mat).m10 - (1 : Mat).m01) * ((1 : Mat).m10 - (1 : Mat).m01)) = (2 : ℝ) ^ 2 by
      simp; norm_num, Real.sqrt_sq (by norm_num)]
  simp only [polar_decomp, h4]
  rw [Prod.mk.injEq]
  constructor <;> ext <;> simp [MPM.Mat.transposed] <;> norm_num

/-- The stencil gather over a grid that holds the same velocity u at all 9
stencil nodes returns exactly u and a zero affine field (partition of unity
and vanishing first moment of the quadratic kernel). -/
theorem gather_const (g : Grid) (p : Particle) (u : Vec)
    (hg : ∀ i j : ℕ, i < 3 → j < 3 →
      (g ((g2p_base_coord p.x).1 + (i : ℤ)) ((g2p_base_coord p.x).2 + (j : ℤ))).toVec = u) :
    g2p_gather g p = (u, 0) := by
  have h00 := hg 0 0 (by norm_num) (by norm_num)
  have h01 := hg 0 1 (by norm_num) (by norm_num)
  have h02 := hg 0 2 (by norm_num) (by norm_num)
  have h10 := hg 1 0 (by norm_num) (by norm_num)
  have h11 := hg 1 1 (by norm_num) (by norm_num)
  have h12 := hg 1 2 (by norm_num) (by norm_num)
  have h20 := hg 2 0 (by norm_num) (by norm_num)
  have h21 := hg 2 1 (by norm_num) (by norm_num)
  have h22 := hg 2 2 (by norm_num) (by norm_num)
  simp only [g2p_gather, Finset.sum_range_succ, Finset.sum_range_zero, zero_add]
  rw [h00, h01, h02, h10, h11, h12, h20, h21, h22, Prod.mk.injEq]
  constructor
  · ext <;>
      · simp [g2p_w_zero, g2p_w_one, g2p_w_two]
        ring
  · ext <;>
      · simp [g2p_w_zero, g2p_w_one, g2p_w_two, MPM.Mat.outer]
        ring

theorem center_base (v : Vec) (cc ty : ℤ) :
    p2g_base_coord (centerParticle v cc ty).x = (39, 39) := by
  simp only [centerParticle, p2g_base_coord]
  rw [Prod.mk.injEq]
  constructor <;>
    · rw [Int.floor_eq_iff]
      constructor <;> norm_num [inv_dx, dx]

theorem center_fx (v : Vec) (cc ty : ℤ) :
    p2g_fx (centerParticle v cc ty).x = ⟨1, 1⟩ := by
  simp only [p2g_fx, center_base v cc ty]
  ext <;> simp [centerParticle] <;> norm_num [inv_dx, dx]

theorem center_affine (v : Vec) (cc ty : ℤ) :
    p2g_affine dt0 (centerParticle v cc ty) = 0 := by
  simp only [p2g_affine, p2g_stress, centerParticle]
  rw [polar_one]
  ext <;> simp [MPM.Mat.det, MPM.Mat.transposed, particle_mass]

set_option maxHeartbeats 2000000 in
theorem center_node (v : Vec) (cc ty : ℤ) (a b : ℤ)
    (ha1 : 39 ≤ a) (ha2 : a ≤ 41) (hb1 : 39 ≤ b) (hb2 : b ≤ 41) :
    solvedGrid dt0 [centerParticle v cc ty] a b = ⟨v.x, v.y - 1 / 50, 1⟩ := by
  have hb := center_base v cc ty
  have hf := center_fx v cc ty
  have ha := center_affine v cc ty
  interval_cases a <;> interval_cases b <;>
    · simp only [solvedGrid, p2gAll, List.foldl_cons, List.foldl_nil, p2gOne, hb, hf, ha,
        gridSolve, grid0, Finset.sum_range_succ, Finset.sum_range_zero]
      norm_num [solveNode, p2g_w_zero, p2g_w_one, p2g_w_two, particle_mass, boundary, n,
        dt0, MPM.Mat.mulVec, centerParticle, V3.toVec]
      ext <;> simp <;> ring

theorem center_gather (v : Vec) (cc ty : ℤ) :
    g2p_gather (solvedGrid dt0 [centerParticle v cc ty]) (centerParticle v cc ty) =
      (⟨v.x, v.y - 1 / 50⟩, 0) := by
  apply gather_const
  intro i j hi hj
  rw [g2p_base_eq, center_base v cc ty]
  rw [center_node v cc ty _ _ (by omega) (by omega) (by omega) (by omega)]
  rfl

theorem center_getD (v : Vec) (cc ty : ℤ) :
    (([centerParticle v cc ty] : List Particle).getD 0 default) = centerParticle v cc ty :=
  rfl

theorem center_v (v : Vec) (cc ty : ℤ) :
    ((advance dt0 [centerParticle v cc ty]).getD 0 default).v = ⟨v.x, v.y - 1 / 50⟩ := by
  rw [advance_getD dt0 _ 0 (by norm_num), center_getD, g2pOne_v, center_gather]

theorem center_x (v : Vec) (cc ty : ℤ) :
    ((advance dt0 [centerParticle v cc ty]).getD 0 default).x =
      ⟨1 / 2 + dt0 * v.x, 1 / 2 + dt0 * (v.y - 1 / 50)⟩ := by
  rw [advance_getD dt0 _ 0 (by norm_num), center_getD, g2pOne_x, center_gather]
  ext <;> simp [centerParticle]

theorem center_candidateF (v : Vec) (cc ty : ℤ) :
    candidateF dt0 (solvedGrid dt0 [centerParticle v cc ty]) (centerParticle v cc ty) = 1 := by
  rw [candidateF, center_gather]
  ext <;> simp [centerParticle]

end Facts

/-- C2: for every fractional offset, the three quadratic B-spline kernel
weights sum to 1 on each axis, the 9 product weights sum to 1, and the
total mass a single particle scatters onto its 9 nodes equals
particle_mass. -/
theorem weights_partition_unity (fxa fxb : ℝ) :
    (∑ i in Finset.range 3, p2g_w fxa i) = 1 ∧
    (∑ i in Finset.range 3, ∑ j in Finset.range 3, p2g_w fxa i * p2g_w fxb j) = 1 ∧
    (∑ i in Finset.range 3, ∑ j in Finset.range 3,
      p2g_w fxa i * p2g_w fxb j * particle_mass) = particle_mass := by
  refine ⟨?_, ?_, ?_⟩ <;>
    simp only [Finset.sum_range_succ, Finset.sum_range_zero, p2g_w, particle_mass] <;> ring

/-- C5: a grid node is normalized only when its accumulated mass is
strictly positive; a node that is not strictly positive is left unchanged
by the grid solve, and a node touched by no particle stays exactly zero
through P2G and the grid solve. -/
theorem zero_mass_node_skip :
    (∀ (dt : ℝ) (g : Grid) (i j : ℤ), ¬(0 < (g i j).z) → gridSolve dt g i j = g i j) ∧
    (∀ (dt : ℝ) (ps : List Particle) (a b : ℤ),
      (∀ p ∈ ps, ∀ i ∈ Finset.range 3, ∀ j ∈ Finset.range 3,
        ¬(a = (p2g_base_coord p.x).1 + (i : ℤ) ∧ b = (p2g_base_coord p.x).2 + (j : ℤ))) →
      p2gAll dt ps a b = 0 ∧ gridSolve dt (p2gAll dt ps) a b = 0) := by
  have hskip : ∀ (dt : ℝ) (g : Grid) (i j : ℤ), ¬(0 < (g i j).z) →
      gridSolve dt g i j = g i j := by
    intro dt g i j h
    simp only [gridSolve]
    split
    · simp only [solveNode, if_neg h]
    · rfl
  refine ⟨hskip, fun dt ps a b h => ?_⟩
  have h0 : p2gAll dt ps a b = 0 := Facts.foldl_p2gOne_untouched dt ps a b grid0 h
  refine ⟨h0, ?_⟩
  rw [hskip dt _ a b (by rw [h0]; simp), h0]

/-- C5 witness: a node with momentum but zero mass is left unchanged, and a
node of the empty scene stays zero. -/
theorem zero_mass_node_skip_witness :
    (¬(0 < ((fun _ _ => V3.mk 1 2 0 : Grid) 0 0).z)) ∧
    gridSolve dt0 (fun _ _ => V3.mk 1 2 0) 0 0 = V3.mk 1 2 0 ∧
    (p2gAll dt0 [] 5 5 = 0 ∧ gridSolve dt0 (p2gAll dt0 []) 5 5 = 0) := by
  have h : ¬(0 < ((fun _ _ => V3.mk 1 2 0 : Grid) 0 0).z) := by norm_num
  exact ⟨h, zero_mass_node_skip.1 dt0 _ 0 0 h,
    zero_mass_node_skip.2 dt0 [] 5 5 (by simp)⟩

/-- C6: P2G and G2P compute identical base cells, fractional offsets and
kernel weights, and the base cell is the componentwise floor of
position / cell_size - 0.5. -/
theorem base_cell_consistency (x : Vec) :
    p2g_base_coord x = g2p_base_coord x ∧
    p2g_base_coord x = (⌊x.x / dx - 0.5⌋, ⌊x.y / dx - 0.5⌋) ∧
    p2g_fx x = g2p_fx x ∧
    (∀ (fx : ℝ) (i : ℕ), p2g_w fx i = g2p_w fx i) := by
  have h1 : x.x * inv_dx = x.x / dx := by rw [inv_dx]; ring
  have h2 : x.y * inv_dx = x.y / dx := by rw [inv_dx]; ring
  refine ⟨rfl, ?_, rfl, ?_⟩
  · simp only [p2g_base_coord, h1, h2]
  · intro fx i
    rcases i with _ | _ | _ | i <;> rfl

/-- C7: the step function is deterministic; identical particle state gives
identical results after any number of steps. -/
theorem advance_deterministic (dt : ℝ) (N : ℕ) (ps1 ps2 : List Particle)
    (h : ps1 = ps2) : (advance dt)^[N] ps1 = (advance dt)^[N] ps2 := by
  rw [h]

/-- C7 witness: determinism instantiated on a concrete scene. -/
theorem advance_deterministic_witness :
    (advance dt0)^[3] [centerParticle 0 0 0] = (advance dt0)^[3] [centerParticle 0 0 0] :=
  advance_deterministic dt0 3 _ _ rfl

/-- C3: a liquid particle keeps an identical deformation gradient through
any number of steps. -/
theorem liquid_deformation_gradient_constant (dt : ℝ) (ps : List Particle)
    (N i : ℕ) (h : i < ps.length) (ht : (ps.getD i default).type = 2) :
    (((advance dt)^[N] ps).getD i default).F = (ps.getD i default).F :=
  Facts.advance_iterate_F_liquid dt ps N i h ht

/-- C3 witness: one step on a single liquid particle keeps its deformation
gradient. -/
theorem liquid_deformation_gradient_constant_witness :
    (((advance dt0)^[1] [centerParticle 0 0 2]).getD 0 default).F =
      (([centerParticle 0 0 2] : List Particle).getD 0 default).F :=
  liquid_deformation_gradient_constant dt0 [centerParticle 0 0 2] 1 0
    (by norm_num) (by rfl)

/-- C9: the particle store never changes size or order, and every particle
keeps its color and material type through any number of steps. -/
theorem particle_store_preserved (dt : ℝ) (ps : List Particle) (N : ℕ) :
    ((advance dt)^[N] ps).length = ps.length ∧
    ∀ i : ℕ, i < ps.length →
      (((advance dt)^[N] ps).getD i default).c = (ps.getD i default).c ∧
      (((advance dt)^[N] ps).getD i default).type = (ps.getD i default).type :=
  Facts.advance_iterate_facts dt ps N

/-- C9 witness: two steps on a concrete two-particle scene preserve length,
colors and types. -/
theorem particle_store_preserved_witness :
    ((advance dt0)^[2] [centerParticle 0 3 0, degenerateSnowParticle]).length = 2 ∧
    (((advance dt0)^[2] [centerParticle 0 3 0, degenerateSnowParticle]).getD 1 default).c =
      (([centerParticle 0 3 0, degenerateSnowParticle] : List Particle).getD 1 default).c ∧
    (((advance dt0)^[2] [centerParticle 0 3 0, degenerateSnowParticle]).getD 1 default).type =
      (([centerParticle 0 3 0, degenerateSnowParticle] : List Particle).getD 1 default).type := by
  have h := particle_store_preserved dt0 [centerParticle 0 3 0, degenerateSnowParticle] 2
  exact ⟨h.1, (h.2 1 (by norm_num)).1, (h.2 1 (by norm_num)).2⟩

/-- C4 (amended): after a step, every snow particle whose candidate
deformation gradient has a non-degenerate polar decomposition (trace and
skew part not both zero) has plastic_jacobian in [0.6, 20.0] and both
singular values of its deformation gradient in [0.975, 1.0075]; the claim
without the non-degeneracy condition is refuted by the counterexample. -/
theorem snow_plasticity_clamp_bounds (dt : ℝ) (ps : List Particle) (i : ℕ)
    (h : i < ps.length) (ht : (ps.getD i default).type = 1)
    (hnd : nonDegenerate (candidateF dt (solvedGrid dt ps) (ps.getD i default))) :
    (0.6 ≤ ((advance dt ps).getD i default).Jp ∧
      ((advance dt ps).getD i default).Jp ≤ 20) ∧
    (1 - 2.5e-2 ≤ (singularValues ((advance dt ps).getD i default).F).1 ∧
      (singularValues ((advance dt ps).getD i default).F).1 ≤ 1 + 7.5e-3 ∧
      1 - 2.5e-2 ≤ (singularValues ((advance dt ps).getD i default).F).2 ∧
      (singularValues ((advance dt ps).getD i default).F).2 ≤ 1 + 7.5e-3) := by
  rw [Facts.advance_getD dt ps i h]
  set p := ps.getD i default with hp
  set g := solvedGrid dt ps with hg
  constructor
  · rw [Facts.g2pOne_snow_Jp dt g p ht]
    have hc := Facts.clamp_mem (p.Jp * (candidateF dt g p).det / ((g2pOne dt g p).F).det)
      0.6 20.0 (by norm_num)
    exact ⟨hc.1, hc.2.trans (by norm_num)⟩
  · rw [Facts.g2pOne_snow_F dt g p ht]
    have hoff := Facts.svd_sig_offdiag (candidateF dt g p)
    have hU := Facts.svd_u_orth (candidateF dt g p) hnd
    have hV := Facts.svd_v_orth (candidateF dt g p)
    rw [hoff.1, hoff.2]
    have hc1 := Facts.clamp_mem (svd (candidateF dt g p)).2.1.m00 (1 - 2.5e-2) (1 + 7.5e-3)
      (by norm_num)
    have hc2 := Facts.clamp_mem (svd (candidateF dt g p)).2.1.m11 (1 - 2.5e-2) (1 + 7.5e-3)
      (by norm_num)
    rw [Facts.sv_of_rotations (svd (candidateF dt g p)).1 (svd (candidateF dt g p)).2.2 _ _
      hU hV (lt_of_lt_of_le (by norm_num) hc1.1) (lt_of_lt_of_le (by norm_num) hc2.1)]
    exact ⟨le_trans hc1.1 (le_max_left _ _), max_le hc1.2 hc2.2,
      le_min hc1.1 hc2.1, (min_le_left _ _).trans hc1.2⟩

/-- C1: one step on a single elastic particle at rest at the center with
F = I and Jp = 1, under dt = 1e-4 and gravity (0, -200), leaves the
vertical velocity exactly -200 * 1e-4 = -0.02 (the elastic stress at F = I
is zero) and decreases position.y by exactly dt * 0.02 = 2e-6. -/
theorem elastic_rest_concrete_step :
    ((advance dt0 [centerParticle 0 0 0]).getD 0 default).v = ⟨0, -2e-2⟩ ∧
    ((advance dt0 [centerParticle 0 0 0]).getD 0 default).x = ⟨0.5, 0.5 - 2e-6⟩ := by
  refine ⟨?_, ?_⟩
  · rw [Facts.center_v 0 0 0]
    ext <;> norm_num
  · rw [Facts.center_x 0 0 0]
    ext <;> norm_num [dt0]

/-- C8 (amended): a step keeps a particle inside the unit square provided
it starts in the banded interior [boundary, 1 - boundary]^2 and its
post-step displacement dt * v is at most the band thickness boundary in
each component; without a bound on the velocities the containment fails,
as the counterexample shows. -/
theorem boundary_containment_one_step (dt : ℝ) (ps : List Particle) (i : ℕ)
    (h : i < ps.length)
    (hx1 : boundary ≤ (ps.getD i default).x.x) (hx2 : (ps.getD i default).x.x ≤ 1 - boundary)
    (hy1 : boundary ≤ (ps.getD i default).x.y) (hy2 : (ps.getD i default).x.y ≤ 1 - boundary)
    (hvx : |dt * ((advance dt ps).getD i default).v.x| ≤ boundary)
    (hvy : |dt * ((advance dt ps).getD i default).v.y| ≤ boundary) :
    0 ≤ ((advance dt ps).getD i default).x.x ∧ ((advance dt ps).getD i default).x.x ≤ 1 ∧
    0 ≤ ((advance dt ps).getD i default).x.y ∧ ((advance dt ps).getD i default).x.y ≤ 1 := by
  rw [Facts.advance_getD dt ps i h] at hvx hvy ⊢
  rw [Facts.g2pOne_x]
  rw [Facts.g2pOne_v] at hvx hvy
  obtain ⟨h1, h2⟩ := abs_le.mp hvx
  obtain ⟨h3, h4⟩ := abs_le.mp hvy
  simp only [Vec.add_x, Vec.add_y, Vec.smul_x, Vec.smul_y] at h1 h2 h3 h4 ⊢
  simp only [boundary] at hx1 hx2 hy1 hy2 h1 h2 h3 h4
  refine ⟨by linarith, by linarith, by linarith, by linarith⟩

/-- C8 witness: the resting center particle satisfies the displacement
bound and stays in the unit square. -/
theorem boundary_containment_one_step_witness :
    0 ≤ ((advance dt0 [centerParticle 0 0 0]).getD 0 default).x.x ∧
    ((advance dt0 [centerParticle 0 0 0]).getD 0 default).x.x ≤ 1 ∧
    0 ≤ ((advance dt0 [centerParticle 0 0 0]).getD 0 default).x.y ∧
    ((advance dt0 [centerParticle 0 0 0]).getD 0 default).x.y ≤ 1 := by
  have hv := Facts.center_v 0 0 0
  refine boundary_containment_one_step dt0 [centerParticle 0 0 0] 0 (by norm_num)
    (by norm_num [centerParticle, boundary]) (by norm_num [centerParticle, boundary])
    (by norm_num [centerParticle, boundary]) (by norm_num [centerParticle, boundary])
    ?_ ?_
  · rw [hv]
    simp only [Vec.zero_x, Vec.zero_y]
    rw [abs_le]
    constructor <;> norm_num [dt0, boundary]
  · rw [hv]
    simp only [Vec.zero_x, Vec.zero_y]
    rw [abs_le]
    constructor <;> norm_num [dt0, boundary]

/-- C8 counterexample: a particle whose position is strictly inside the
banded interior but whose velocity is large leaves the unit square after
one step, refuting the claim for arbitrary initial states. -/
theorem boundary_containment_counterexample :
    (∀ p ∈ [centerParticle ⟨0, 1e6⟩ 0 0],
      boundary < p.x.x ∧ p.x.x < 1 - boundary ∧ boundary < p.x.y ∧ p.x.y < 1 - boundary) ∧
    1 < (((advance dt0)^[1] [centerParticle ⟨0, 1e6⟩ 0 0]).getD 0 default).x.y := by
  constructor
  · intro p hp
    rw [List.mem_singleton] at hp
    subst hp
    norm_num [centerParticle, boundary]
  · rw [Function.iterate_one, Facts.center_x ⟨0, 1e6⟩ 0 0]
    norm_num [dt0]

/-- C4 witness: a snow particle at rest at the center has the identity as
candidate deformation gradient, which is non-degenerate, and its clamps
hold after one step. -/
theorem snow_plasticity_clamp_bounds_witness :
    (0.6 ≤ ((advance dt0 [centerParticle 0 0 1]).getD 0 default).Jp ∧
      ((advance dt0 [centerParticle 0 0 1]).getD 0 default).Jp ≤ 20) ∧
    (1 - 2.5e-2 ≤ (singularValues ((advance dt0 [centerParticle 0 0 1]).getD 0 default).F).1 ∧
      (singularValues ((advance dt0 [centerParticle 0 0 1]).getD 0 default).F).1 ≤ 1 + 7.5e-3 ∧
      1 - 2.5e-2 ≤ (singularValues ((advance dt0 [centerParticle 0 0 1]).getD 0 default).F).2 ∧
      (singularValues ((advance dt0 [centerParticle 0 0 1]).getD 0 default).F).2 ≤ 1 + 7.5e-3) := by
  refine snow_plasticity_clamp_bounds dt0 [centerParticle 0 0 1] 0 (by norm_num) rfl ?_
  rw [Facts.center_getD, Facts.center_candidateF]
  simp only [nonDegenerate, Mat.one_m00, Mat.one_m01, Mat.one_m10, Mat.one_m11]
  norm_num

/-- C10: the 3x3 stencil accesses of a position component are within the
node array bounds [0, n] exactly when the component lies in
[0.5 dx, (n - 0.5) dx); a component in [(n - 0.5) dx, 1] drives the access
out of bounds, so in-bounds access is a precondition rather than a
guarantee on [0, 1]. -/
theorem grid_access_bounds :
    (∀ x : Vec,
      ((0 ≤ (p2g_base_coord x).1 ∧ (p2g_base_coord x).1 + 2 ≤ n) ↔
        (0.5 * dx ≤ x.x ∧ x.x < ((n : ℝ) - 0.5) * dx)) ∧
      ((0 ≤ (p2g_base_coord x).2 ∧ (p2g_base_coord x).2 + 2 ≤ n) ↔
        (0.5 * dx ≤ x.y ∧ x.y < ((n : ℝ) - 0.5) * dx)) ∧
      g2p_base_coord x = p2g_base_coord x) ∧
    (∀ x : Vec, ((n : ℝ) - 0.5) * dx ≤ x.x → x.x ≤ 1 → n < (p2g_base_coord x).1 + 2) := by
  refine ⟨fun x => ⟨Facts.floor_base_bounds x.x, Facts.floor_base_bounds x.y, rfl⟩,
    fun x h1 _ => ?_⟩
  have h := Facts.floor_base_overflow x.x h1
  simp only [p2g_base_coord, n] at h ⊢
  omega

/-- C10 witness: the position component 0.999 lies in [(n - 0.5) dx, 1] and
its stencil runs out of the node array. -/
theorem grid_access_bounds_witness :
    n < (p2g_base_coord ⟨0.999, 0⟩).1 + 2 :=
  grid_access_bounds.2 ⟨0.999, 0⟩ (by norm_num [n, dx]) (by norm_num)

namespace Facts

theorem deg_base : p2g_base_coord degenerateSnowParticle.x = (1, 39) := by
  simp only [degenerateSnowParticle, p2g_base_coord]
  rw [Prod.mk.injEq]
  constructor <;>
    · rw [Int.floor_eq_iff]
      constructor <;> norm_num [inv_dx, dx]

theorem deg_fx : p2g_fx degenerateSnowParticle.x = ⟨3 / 5, 1⟩ := by
  simp only [p2g_fx, deg_base]
  ext <;> simp [degenerateSnowParticle] <;> norm_num [inv_dx, dx]

set_option maxHeartbeats 2000000 in
theorem deg_node (a b : ℤ) (ha1 : 1 ≤ a) (ha2 : a ≤ 3) (hb1 : 39 ≤ b) (hb2 : b ≤ 41) :
    solvedGrid dt0 [degenerateSnowParticle] a b = 0 := by
  have hb := deg_base
  have hf := deg_fx
  interval_cases a <;> interval_cases b <;>
    · simp only [solvedGrid, p2gAll, List.foldl_cons, List.foldl_nil, p2gOne, hb, hf,
        gridSolve, grid0, Finset.sum_range_succ, Finset.sum_range_zero]
      norm_num [solveNode, p2g_w_zero, p2g_w_one, p2g_w_two, particle_mass, boundary, n,
        dt0, degenerateSnowParticle]

theorem deg_getD :
    (([degenerateSnowParticle] : List Particle).getD 0 default) = degenerateSnowParticle :=
  rfl

theorem deg_gather :
    g2p_gather (solvedGrid dt0 [degenerateSnowParticle]) degenerateSnowParticle = (0, 0) := by
  apply gather_const
  intro i j hi hj
  rw [g2p_base_eq, deg_base]
  rw [deg_node _ _ (by omega) (by omega) (by omega) (by omega)]
  rfl

theorem deg_candidateF :
    candidateF dt0 (solvedGrid dt0 [degenerateSnowParticle]) degenerateSnowParticle =
      Mat.mk 1 0 0 (-1) := by
  rw [candidateF, deg_gather]
  ext <;> simp [degenerateSnowParticle]

theorem deg_polar :
    polar_decomp (Mat.mk 1 0 0 (-1)) = (Mat.mk 0 0 0 0, Mat.mk 0 0 0 0) := by
  simp only [polar_decomp]
  rw [Prod.mk.injEq]
  constructor <;> ext <;> norm_num [MPM.Mat.transposed]

theorem deg_svd :
    svd (Mat.mk 1 0 0 (-1)) = (Mat.mk 0 0 0 0, Mat.mk 0 0 0 0, 1) := by
  simp [svd, deg_polar]

theorem deg_F :
    ((advance dt0 [degenerateSnowParticle]).getD 0 default).F = Mat.mk 0 0 0 0 := by
  rw [advance_getD dt0 _ 0 (by norm_num), deg_getD,
    g2pOne_snow_F dt0 _ _ rfl, deg_candidateF, deg_svd]
  ext <;> norm_num [MPM.Mat.transposed]

theorem sv_zero : singularValues (Mat.mk 0 0 0 0) = (0, 0) := by
  simp [singularValues, MPM.Mat.transposed, MPM.Mat.det]

end Facts

/-- C4 counterexample: a snow particle parked in the sticky band with
deformation gradient diag(1, -1) gathers zero velocity, so its candidate
gradient keeps zero trace and zero skew; the degenerate decomposition
collapses the reconstituted gradient to the zero matrix, whose singular
values 0 lie outside [0.975, 1.0075]. -/
theorem snow_singular_values_counterexample :
    ((advance dt0 [degenerateSnowParticle]).getD 0 default).type = 1 ∧
    ¬(1 - 2.5e-2 ≤
        (singularValues ((advance dt0 [degenerateSnowParticle]).getD 0 default).F).1 ∧
      (singularValues ((advance dt0 [degenerateSnowParticle]).getD 0 default).F).1 ≤
        1 + 7.5e-3 ∧
      1 - 2.5e-2 ≤
        (singularValues ((advance dt0 [degenerateSnowParticle]).getD 0 default).F).2 ∧
      (singularValues ((advance dt0 [degenerateSnowParticle]).getD 0 default).F).2 ≤
        1 + 7.5e-3) := by
  constructor
  · rw [Facts.advance_getD dt0 _ 0 (by norm_num), Facts.g2pOne_type, Facts.deg_getD]
    rfl
  · rw [Facts.deg_F, Facts.sv_zero]
    norm_num

end MPM
